import Mathlib

/-!
Shallow embedding of the XML tree-merge engine of rubymine-configurator
(src/main.rs).  The document model mirrors roxmltree's node kinds that the
program inspects (elements, text, comments, processing instructions); the
rewriting functions mirror the XmlWriter-based serialization passes.
-/

/-- In-memory XML node, mirroring the roxmltree node kinds the program
distinguishes (`is_element`, `is_text`, comments and processing
instructions, which fall through every branch of the rewriters). -/
inductive XNode where
  | element (tag : String) (attrs : List (String × String)) (children : List XNode)
  | text (s : String)
  | comment (s : String)
  | pi (s : String)

/-- First attribute with the given name, mirroring roxmltree
`Node::attribute`. -/
def attrLookup (attrs : List (String × String)) (name : String) : Option String :=
  match attrs with
  | [] => none
  | (n, v) :: rest => if n = name then some v else attrLookup rest name

/-- Split a char list at the first occurrence of `c`: returns the part
before and the part after (the occurrence itself removed).  Mirrors Rust
`str::find(char)` followed by slicing. -/
def breakAtChar (c : Char) : List Char → Option (List Char × List Char)
  | [] => none
  | x :: xs =>
    if x = c then some ([], xs)
    else
      match breakAtChar c xs with
      | none => none
      | some (p, q) => some (x :: p, q)

/-- The suffix after the first occurrence of the pattern `pat`, mirroring
Rust `str::find(&str)` followed by slicing past the pattern. -/
def afterPat (pat : List Char) : List Char → Option (List Char)
  | [] => if pat = [] then some [] else none
  | x :: xs =>
    if pat.isPrefixOf (x :: xs) then some ((x :: xs).drop pat.length)
    else afterPat pat xs

/-- The characters strictly between the first `(` and the first `)`
after it, mirroring the slicing
`&interpreter_name[start + 1..start + end]` in
`is_same_worktree_interpreter`; `none` when either paren is missing. -/
def betweenParens (s : List Char) : Option (List Char) :=
  match breakAtChar '(' s with
  | none => none
  | some (_, afterOpen) =>
    match breakAtChar ')' afterOpen with
    | none => none
    | some (inner, _) => some inner

/-- Split a char list on a separator character, mirroring the component
view of a Unix path string. -/
def splitChar (c : Char) : List Char → List (List Char)
  | [] => [[]]
  | x :: xs =>
    match splitChar c xs with
    | [] => if x = c then [[], []] else [[x]]
    | p :: ps => if x = c then [] :: p :: ps else (x :: p) :: ps

/-- Model of Rust `Path::file_name` for Unix path strings: the last
non-empty, non-`.` component, and `None` when the path is empty or ends in
`..`. -/
def fileName (p : String) : Option String :=
  match ((splitChar '/' p.data).filter (fun c => c != [] && c != ['.'])).getLast? with
  | none => none
  | some c => if c = ['.', '.'] then none else some (String.mk c)

/-- Model of Rust `Path::parent().unwrap().display()` for the plain
slash-separated paths produced upstream (no trailing or duplicated
separators): everything before the last `/`, with `/` for a top-level
absolute path and `""` for a bare name. -/
def parentDisplay (p : String) : String :=
  match breakAtChar '/' p.data.reverse with
  | some (_, rest) => if rest = [] then "/" else String.mk rest.reverse
  | none => ""

/-- Whether a text node is whitespace-only, mirroring
`text.trim().is_empty()` in the rewriters. -/
def isBlank (s : String) : Bool :=
  s.data.all (fun c => c.isWhitespace)

/-- Model of `RubyMineInterpreter::extract_worktree_name`: the path segment after
the first `/trees/`, else the directory's file name, else `"unknown"`. -/
def extract_worktree_name (current_dir : String) : String :=
  match afterPat "/trees/".data current_dir.data with
  | some after =>
    match breakAtChar '/' after with
    | some (w, _) => String.mk w
    | none => String.mk after
  | none => (fileName current_dir).getD "unknown"

/-- The `name_part` computed inside
`RubyMineInterpreter::generate_interpreter_name`: `{worktree}/{dir-name}`
when the path contains `/trees/`, else just the directory name. -/
def namePart (current_dir : String) : String :=
  match afterPat "/trees/".data current_dir.data with
  | some after =>
    match breakAtChar '/' after with
    | some (w, _) => String.mk w ++ "/" ++ (fileName current_dir).getD "unknown"
    | none => String.mk after ++ "/" ++ (fileName current_dir).getD "unknown"
  | none => (fileName current_dir).getD "unknown"

/-- Model of `RubyMineInterpreter::generate_interpreter_name`, with the
time-varying date string supplied as an argument. -/
def generate_interpreter_name (current_dir ruby_version date_str : String) : String :=
  "Ruby " ++ ruby_version ++ " (" ++ namePart current_dir ++ ") + shadowenv " ++ date_str

/-- The facts record carried by the program's `RubyMineInterpreter`
struct.  `shadowenv_path` models the result of the filesystem probe
`find_shadowenv_path`, supplied here as a fact. -/
structure RubyMineInterpreter where
  ruby_wrapper_path : String
  ruby_interpreter_path : String
  ruby_version : String
  interpreter_name : String
  current_dir : String
  shadowenv_path : String
  dry_run : Bool

/-- Model of `RubyMineInterpreter::is_same_worktree_interpreter`: parse the text
between the first `(` and the following `)` of a display name; when it
contains `/`, compare the part before the slash with the current
worktree; otherwise compare with the current directory name. -/
def is_same_worktree_interpreter (i : RubyMineInterpreter) (interpreter_name : String) : Bool :=
  let current_worktree := extract_worktree_name i.current_dir
  match betweenParens interpreter_name.data with
  | none => false
  | some path_part =>
    match breakAtChar '/' path_part with
    | some (worktree_part, _) => String.mk worktree_part == current_worktree
    | none =>
      let current_dir_name := (fileName i.current_dir).getD "unknown"
      String.mk path_part == current_dir_name && current_worktree == current_dir_name

/-- Model of `RubyMineInterpreter::write_shadowenv_interpreter`: the freshly built
`jdk` entry subtree, exactly as emitted by the sequence of writer calls. -/
def write_shadowenv_interpreter (i : RubyMineInterpreter) : XNode :=
  .element "jdk" [("version", "2")] [
    .element "name" [("value", i.interpreter_name)] [],
    .element "type" [("value", "RUBY_SDK")] [],
    .element "version" [("value", i.ruby_version)] [],
    .element "homePath" [("value", i.ruby_interpreter_path)] [],
    .element "roots" [] [
      .element "classPath" [] [.element "root" [("type", "composite")] []],
      .element "sourcePath" [] [.element "root" [("type", "composite")] []]],
    .element "additional"
      [("version", "1"), ("GEMS_BIN_DIR_PATH", parentDisplay i.ruby_interpreter_path)] [
      .element "VERSION_MANAGER" [("ID", "system")] [
        .element "custom-configurator" [] [
          .element "list" [] [
            .element "option" [("value", i.shadowenv_path)] [],
            .element "option" [("value", "exec")] [],
            .element "option" [("value", "--dir")] [],
            .element "option" [("value", i.current_dir)] [],
            .element "option" [("value", "--")] []]]]]]

mutual
/-- The identity-bearing descendant lookup inside
`write_element_with_interpreter`:
`child.descendants().find(|n| n.tag_name().name() == "name" && n.attribute("value").is_some())`,
returning that first descendant's `value` attribute.  Pre-order,
including the node itself; non-element nodes have an empty tag name and
no attributes, so they never match. -/
def firstNameValue : XNode → Option String
  | .element t a cs =>
    if t == "name" && (attrLookup a "value").isSome then attrLookup a "value"
    else firstNameValueList cs
  | _ => none

/-- Pre-order search over a sibling list for `firstNameValue`. -/
def firstNameValueList : List XNode → Option String
  | [] => none
  | c :: cs =>
    match firstNameValue c with
    | some v => some v
    | none => firstNameValueList cs
end

mutual
/-- Model of `RubyMineInterpreter::write_element_with_interpreter`: re-emit an
element, its attributes and its children; inside a
`component[name="ProjectJdkTable"]` element, skip every direct `jdk`
child whose first name-bearing descendant matches
`is_same_worktree_interpreter`, and append the fresh entry as the last
child.  Non-element input produces nothing (the function body is guarded
by `node.is_element()`). -/
def write_element_with_interpreter (i : RubyMineInterpreter) : XNode → List XNode
  | .element t a cs =>
    let isPJT := t == "component" && attrLookup a "name" == some "ProjectJdkTable"
    let kids := writeChildrenWI i isPJT cs
    [.element t a (if isPJT then kids ++ [write_shadowenv_interpreter i] else kids)]
  | _ => []

/-- The child loop of `write_element_with_interpreter`: elements recurse
(after the skip check when inside the ProjectJdkTable component),
non-blank text is re-emitted, comments and processing instructions fall
through every branch and are dropped. -/
def writeChildrenWI (i : RubyMineInterpreter) (isPJT : Bool) : List XNode → List XNode
  | [] => []
  | .element ctag ca ck :: cs =>
    (if isPJT && ctag == "jdk" &&
        (match firstNameValue (.element ctag ca ck) with
         | some v => is_same_worktree_interpreter i v
         | none => false)
     then []
     else write_element_with_interpreter i (.element ctag ca ck)) ++ writeChildrenWI i isPJT cs
  | .text s :: cs => (if isBlank s then [] else [.text s]) ++ writeChildrenWI i isPJT cs
  | .comment _ :: cs => writeChildrenWI i isPJT cs
  | .pi _ :: cs => writeChildrenWI i isPJT cs
end

/-- One step of the child loop of `write_element_with_interpreter`,
factored out so single children can be spoken about. -/
def writeChildWI (i : RubyMineInterpreter) (isPJT : Bool) : XNode → List XNode
  | c@(.element ctag _ _) =>
    if isPJT && ctag == "jdk" &&
        (match firstNameValue c with
         | some v => is_same_worktree_interpreter i v
         | none => false)
    then []
    else write_element_with_interpreter i c
  | .text s => if isBlank s then [] else [.text s]
  | .comment _ => []
  | .pi _ => []

mutual
/-- The identity re-serialization performed by
`write_element_with_interpreter` outside any ProjectJdkTable component:
elements and their attributes are kept, non-blank text is kept, blank
text, comments and processing instructions are dropped. -/
def normalizeNode : XNode → List XNode
  | .element t a cs => [.element t a (normalizeList cs)]
  | .text s => if isBlank s then [] else [.text s]
  | .comment _ => []
  | .pi _ => []

/-- Extension of `normalizeNode` over a sibling list. -/
def normalizeList : List XNode → List XNode
  | [] => []
  | c :: cs => normalizeNode c ++ normalizeList cs
end

/-- The container predicate of the merge:
`tag_name == "component" && node.attribute("name") == Some("ProjectJdkTable")`. -/
def isPJTNode : XNode → Bool
  | .element t a _ => t == "component" && attrLookup a "name" == some "ProjectJdkTable"
  | _ => false

/-- Whether a node is an element with the entry tag `jdk`. -/
def isJdkElem : XNode → Bool
  | .element t _ _ => t == "jdk"
  | _ => false

mutual
/-- No element of the subtree (including the node itself) satisfies the
ProjectJdkTable container predicate. -/
def pjtFreeNode : XNode → Bool
  | .element t a cs => !(t == "component" && attrLookup a "name" == some "ProjectJdkTable")
      && pjtFreeList cs
  | _ => true

/-- Extension of `pjtFreeNode` over a sibling list. -/
def pjtFreeList : List XNode → Bool
  | [] => true
  | c :: cs => pjtFreeNode c && pjtFreeList cs
end

mutual
/-- No comment and no processing-instruction node anywhere in the
subtree. -/
def commentPIFreeNode : XNode → Bool
  | .element _ _ cs => commentPIFreeList cs
  | .text _ => true
  | .comment _ => false
  | .pi _ => false

/-- Extension of `commentPIFreeNode` over a sibling list. -/
def commentPIFreeList : List XNode → Bool
  | [] => true
  | c :: cs => commentPIFreeNode c && commentPIFreeList cs
end

mutual
/-- All element nodes of a subtree in document (pre-)order. -/
def elemsOfNode : XNode → List XNode
  | .element t a cs => .element t a cs :: elemsOfList cs
  | _ => []

/-- Extension of `elemsOfNode` over a sibling list. -/
def elemsOfList : List XNode → List XNode
  | [] => []
  | c :: cs => elemsOfNode c ++ elemsOfList cs
end

/-- Number of elements with the given tag in a forest. -/
def countTag (t : String) (l : List XNode) : Nat :=
  ((elemsOfList l).filter (fun e =>
    match e with
    | .element t2 _ _ => t2 == t
    | _ => false)).length

/-- The derived identity key of an existing entry: the
`{scope}/{leaf}` text between the parens of the display name carried by
its first name-bearing descendant (the composition the merge uses to
compare entries). -/
def entryKey (c : XNode) : Option (List Char) :=
  match firstNameValue c with
  | some v => betweenParens v.data
  | none => none

/-- Model of `RubyMineInterpreter::create_new_config_content`: the synthesized
skeleton document built when no prior file exists. -/
def create_new_config_content (i : RubyMineInterpreter) : XNode :=
  .element "application" []
    [.element "component" [("name", "ProjectJdkTable")] [write_shadowenv_interpreter i]]

/-- The filesystem effects the caller performs after the pure transform
succeeds (`write_config_file`: backup copy of an existing file, then the
write). -/
inductive FsAction where
  | backup
  | write
deriving DecidableEq, Repr

/-- Model of `RubyMineInterpreter::create_interpreter_config`: when the config
file exists, its parsed content (the parse may have failed) is rewritten
by `write_element_with_interpreter`; otherwise the fresh skeleton is
produced.  The `?` on `Document::parse` propagates a parse error. -/
def create_interpreter_config (i : RubyMineInterpreter) (file_exists : Bool)
    (parsed : Except String XNode) : Except String (List XNode) :=
  if file_exists then
    match parsed with
    | .error e => .error e
    | .ok root => .ok (write_element_with_interpreter i root)
  else
    .ok [create_new_config_content i]

/-- Model of `RubyMineInterpreter::create_interpreter` (the non-printing core):
compute the new content, then `write_config_file` backs up an existing
file and writes.  A failure in `create_interpreter_config` aborts before
any filesystem action. -/
def create_interpreter (i : RubyMineInterpreter) (file_exists : Bool)
    (parsed : Except String XNode) : Except String (List XNode × List FsAction) :=
  match create_interpreter_config i file_exists parsed with
  | .error e => .error e
  | .ok content =>
    .ok (content, (if file_exists then [FsAction.backup] else []) ++ [FsAction.write])

/-- Model of `RubyMineInterpreter::generate_ruby_args`: the `-I` include list
joined with spaces. -/
def generate_ruby_args (rubymine_app_path : String) : String :=
  String.intercalate " "
    (([rubymine_app_path ++ "/Contents/plugins/ruby/rb/testing/patch/common",
       rubymine_app_path ++ "/Contents/plugins/ruby/rb/testing/patch/bdd",
       rubymine_app_path ++ "/Contents/plugins/ruby/rb/testing/patch/rake",
       rubymine_app_path ++ "/Contents/plugins/ruby/rb/testing/patch/testunit"]).map
      (fun p => "-I" ++ p))

/-- The attribute loop of `write_workspace_element`.  `all` is the full
attribute list of the element (the Rust inner loop re-reads
`node.attributes()` from the start); the recursion walks the remaining
attributes.  On the first `NAME="RUBY_ARGS"` attribute of a
`RTEST_RUN_CONFIG_SETTINGS_ID` element it emits the rewritten pair
followed by every attribute whose name is neither `NAME` nor `VALUE`,
and reports that the element was updated (the element is then closed
with no children). -/
def wwAttrs (is_target : Bool) (ruby_args : String) (all : List (String × String)) :
    List (String × String) → List (String × String) × Bool
  | [] => ([], false)
  | (n, v) :: rest =>
    if is_target && n == "NAME" && v == "RUBY_ARGS" then
      (("NAME", "RUBY_ARGS") :: ("VALUE", ruby_args) ::
        all.filter (fun a => a.1 != "NAME" && a.1 != "VALUE"), true)
    else
      match wwAttrs is_target ruby_args all rest with
      | (as2, b) => ((n, v) :: as2, b)

mutual
/-- Model of `RubyMineInterpreter::write_workspace_element`: re-emit the tree; on
a `RTEST_RUN_CONFIG_SETTINGS_ID` element carrying `NAME="RUBY_ARGS"`,
rewrite the attributes per `wwAttrs`, close the element immediately
(children are not visited) and set the updated flag. -/
def write_workspace_element (ruby_args : String) : XNode → List XNode × Bool
  | .element t a cs =>
    let is_target := t == "RTEST_RUN_CONFIG_SETTINGS_ID"
    match wwAttrs is_target ruby_args a a with
    | (as2, true) => ([.element t as2 []], true)
    | (as2, false) =>
      match writeWorkspaceChildren ruby_args cs with
      | (ks, b) => ([.element t as2 ks], b)
  | .text s => if isBlank s then ([], false) else ([.text s], false)
  | .comment _ => ([], false)
  | .pi _ => ([], false)

/-- The child loop of `write_workspace_element`; the updated flag is the
disjunction of the children's flags (the Rust code threads one mutable
flag that is only ever set). -/
def writeWorkspaceChildren (ruby_args : String) : List XNode → List XNode × Bool
  | [] => ([], false)
  | c :: cs =>
    match write_workspace_element ruby_args c with
    | (o, b1) =>
      match writeWorkspaceChildren ruby_args cs with
      | (os, b2) => (o ++ os, b1 || b2)
end

mutual
/-- Whether the subtree contains a `RTEST_RUN_CONFIG_SETTINGS_ID`
element carrying a `NAME="RUBY_ARGS"` attribute (the patch target). -/
def hasRubyArgsTarget : XNode → Bool
  | .element t a cs =>
    (t == "RTEST_RUN_CONFIG_SETTINGS_ID" &&
      a.any (fun p => p.1 == "NAME" && p.2 == "RUBY_ARGS"))
    || hasRubyArgsTargetList cs
  | _ => false

/-- Extension of `hasRubyArgsTarget` over a sibling list. -/
def hasRubyArgsTargetList : List XNode → Bool
  | [] => false
  | c :: cs => hasRubyArgsTarget c || hasRubyArgsTargetList cs
end

/-- Model of `RubyMineInterpreter::update_workspace_minitest_config` (the pure
part, the document already parsed): rewrite and, only when the updated
flag was set, back up and write; otherwise no filesystem action occurs
and the call still succeeds. -/
def update_workspace_minitest_config (ruby_args : String) (root : XNode) :
    List XNode × List FsAction :=
  match write_workspace_element ruby_args root with
  | (out, updated) => (out, if updated then [FsAction.backup, FsAction.write] else [])

/-- The MySQL connection facts read from the environment. -/
structure MySqlConfig where
  host : String
  port : String
  user : String
  password : String

mutual
/-- The descendant scan inside
`RubyMineInterpreter::get_or_generate_datasource_uuid`: the first
`data-source` element in document order that carries a `uuid` attribute
yields that attribute's value. -/
def findDataSourceUuid : XNode → Option String
  | .element t a cs =>
    if t == "data-source" then
      match attrLookup a "uuid" with
      | some u => some u
      | none => findDataSourceUuidList cs
    else findDataSourceUuidList cs
  | _ => none

/-- Extension of `findDataSourceUuid` over a sibling list. -/
def findDataSourceUuidList : List XNode → Option String
  | [] => none
  | c :: cs =>
    match findDataSourceUuid c with
    | some u => some u
    | none => findDataSourceUuidList cs
end

/-- Model of `RubyMineInterpreter::get_or_generate_datasource_uuid` on an
already-parsed prior document (`none` models an absent
`dataSources.xml`); `fresh_uuid` models the freshly minted
`Uuid::new_v4` value used only when no prior uuid is found. -/
def get_or_generate_datasource_uuid (old_doc : Option XNode) (fresh_uuid : String) : String :=
  match old_doc with
  | some doc =>
    match findDataSourceUuid doc with
    | some u => u
    | none => fresh_uuid
  | none => fresh_uuid

/-- Model of `RubyMineInterpreter::create_datasources_xml`: the generated
`dataSources.xml` document. -/
def create_datasources_xml (c : MySqlConfig) (uuid : String) : XNode :=
  .element "project" [("version", "4")] [
    .element "component"
      [("name", "DataSourceManagerImpl"), ("format", "xml"), ("multifile-model", "true")] [
      .element "data-source"
        [("source", "LOCAL"), ("name", "@" ++ c.host), ("uuid", uuid)] [
        .element "driver-ref" [] [.text "mysql.8"],
        .element "synchronize" [] [.text "true"],
        .element "jdbc-driver" [] [.text "com.mysql.cj.jdbc.Driver"],
        .element "jdbc-url" [] [.text ("jdbc:mysql://" ++ c.host ++ ":" ++ c.port)],
        .element "jdbc-additional-properties" [] [
          .element "property"
            [("name", "com.intellij.clouds.kubernetes.db.enabled"), ("value", "false")] []],
        .element "working-dir" [] [.text "$ProjectFileDir$"]]]]

/-- Model of `RubyMineInterpreter::create_datasources_local_xml`: the generated
`dataSources.local.xml` document. -/
def create_datasources_local_xml (c : MySqlConfig) (uuid : String) : XNode :=
  .element "project" [("version", "4")] [
    .element "component"
      [("name", "dataSourceStorageLocal"), ("created-in", "RM-233.15026.15")] [
      .element "data-source" [("name", "@" ++ c.host), ("uuid", uuid)] [
        .element "database-info"
          [("product", "MySQL"), ("version", "8.0.11"), ("jdbc-version", "4.2"),
           ("driver-name", "MySQL Connector/J"),
           ("driver-version",
            "mysql-connector-java-8.0.25 (Revision: 08be9e9b4cba6aa115f9b27b215887af40b159e0)"),
           ("dbms", "MYSQL"), ("exact-version", "8.0.11"),
           ("exact-driver-version", "8.0")] [
          .element "extra-name-characters" [] [.text "#@"],
          .element "identifier-quote-string" [] [.text "`"]],
        .element "case-sensitivity"
          [("plain-identifiers", "lower"), ("quoted-identifiers", "lower")] [],
        .element "secret-storage" [] [.text "master_key"],
        .element "user-name" [] [.text c.user],
        .element "schema-mapping" [] [
          .element "introspection-scope" [] [
            .element "node" [("kind", "schema"), ("qname", "@")] [],
            .element "node"
              [("kind", "schema"), ("qname", "storefront_renderer_test_master")] [],
            .element "node"
              [("kind", "schema"), ("qname", "storefront_renderer_test_shard")] [],
            .element "node"
              [("kind", "schema"), ("qname", "storefront_renderer_dev_shard")] []]]]]]

theorem breakAtChar_cons_self (c : Char) (l : List Char) :
    breakAtChar c (c :: l) = some ([], l) := by
  simp [breakAtChar]

theorem breakAtChar_some_spec (c : Char) :
    ∀ (l p q : List Char), breakAtChar c l = some (p, q) → c ∉ p ∧ l = p ++ c :: q := by
  intro l
  induction l with
  | nil => intro p q h; simp [breakAtChar] at h
  | cons x xs ih =>
    intro p q h
    rw [breakAtChar] at h
    by_cases hx : x = c
    · rw [if_pos hx] at h
      simp only [Option.some.injEq, Prod.mk.injEq] at h
      obtain ⟨rfl, rfl⟩ := h
      subst hx
      exact ⟨by simp, rfl⟩
    · rw [if_neg hx] at h
      cases h2 : breakAtChar c xs with
      | none => rw [h2] at h; cases h
      | some pq =>
        obtain ⟨p2, q2⟩ := pq
        rw [h2] at h
        simp only [Option.some.injEq, Prod.mk.injEq] at h
        obtain ⟨rfl, rfl⟩ := h
        obtain ⟨hm, heq⟩ := ih p2 _ h2
        refine ⟨?_, by rw [List.cons_append, ← heq]⟩
        intro hmem
        rcases List.mem_cons.mp hmem with h3 | h3
        · exact hx h3.symm
        · exact hm h3

theorem breakAtChar_eq_none_iff (c : Char) :
    ∀ l : List Char, breakAtChar c l = none ↔ c ∉ l := by
  intro l
  induction l with
  | nil => simp [breakAtChar]
  | cons x xs ih =>
    rw [breakAtChar]
    by_cases hx : x = c
    · subst hx; simp
    · rw [if_neg hx]
      cases h2 : breakAtChar c xs with
      | none =>
        have hnotmem := (ih).mp h2
        constructor
        · intro _
          simp only [List.mem_cons, not_or]
          exact ⟨fun hc => hx hc.symm, hnotmem⟩
        · intro _
          rfl
      | some pq =>
        obtain ⟨p2, q2⟩ := pq
        have hmem : c ∈ xs := by
          obtain ⟨_, heq⟩ := breakAtChar_some_spec c xs p2 q2 h2
          rw [heq]; simp
        simp [List.mem_cons, hmem]

theorem breakAtChar_append_of_not_mem (c : Char) :
    ∀ (xs ys : List Char), c ∉ xs →
      breakAtChar c (xs ++ ys) =
        match breakAtChar c ys with
        | none => none
        | some (p, q) => some (xs ++ p, q) := by
  intro xs
  induction xs with
  | nil =>
    intro ys _
    cases h : breakAtChar c ys with
    | none => simp [h]
    | some pq => obtain ⟨p, q⟩ := pq; simp [h]
  | cons x xs ih =>
    intro ys hmem
    have hx : ¬(x = c) := fun h => hmem (h ▸ List.mem_cons_self x xs)
    have hxs : c ∉ xs := fun h => hmem (List.mem_cons_of_mem x h)
    rw [List.cons_append, breakAtChar, if_neg hx, ih ys hxs]
    cases h : breakAtChar c ys with
    | none => simp
    | some pq => obtain ⟨p, q⟩ := pq; simp

theorem breakAtChar_append_cons (c : Char) (p q : List Char) (h : c ∉ p) :
    breakAtChar c (p ++ c :: q) = some (p, q) := by
  rw [breakAtChar_append_of_not_mem c p (c :: q) h, breakAtChar_cons_self]
  simp

theorem splitChar_ne_nil (c : Char) : ∀ l : List Char, splitChar c l ≠ [] := by
  intro l
  induction l with
  | nil => simp [splitChar]
  | cons x xs ih =>
    rw [splitChar]
    cases h : splitChar c xs with
    | nil => exact absurd h ih
    | cons p ps => by_cases hx : x = c <;> simp [hx]

theorem splitChar_not_mem (c : Char) :
    ∀ (l p : List Char), p ∈ splitChar c l → c ∉ p := by
  intro l
  induction l with
  | nil =>
    intro p hp
    simp [splitChar] at hp
    subst hp; simp
  | cons x xs ih =>
    intro p hp
    cases h : splitChar c xs with
    | nil => exact absurd h (splitChar_ne_nil c xs)
    | cons p2 ps =>
      have hred : splitChar c (x :: xs) =
          if x = c then [] :: p2 :: ps else (x :: p2) :: ps := by
        rw [splitChar, h]
      rw [hred] at hp
      by_cases hx : x = c
      · rw [if_pos hx] at hp
        rcases List.mem_cons.mp hp with h3 | h3
        · subst h3; simp
        · exact ih p (h ▸ h3)
      · rw [if_neg hx] at hp
        rcases List.mem_cons.mp hp with h3 | h3
        · subst h3
          intro hmem
          rcases List.mem_cons.mp hmem with h4 | h4
          · exact hx h4.symm
          · exact ih p2 (h ▸ List.mem_cons_self p2 ps) h4
        · exact ih p (h ▸ List.mem_cons_of_mem p2 h3)

theorem mem_of_getLast?_eq {α : Type} {l : List α} {a : α} (h : l.getLast? = some a) :
    a ∈ l := by
  obtain ⟨hne, rfl⟩ := List.mem_getLast?_eq_getLast (show a ∈ l.getLast? from h)
  exact List.getLast_mem hne

theorem string_mk_data (s : String) : String.mk s.data = s := rfl

theorem fileName_no_slash (p s : String) (h : fileName p = some s) : '/' ∉ s.data := by
  cases h2 : ((splitChar '/' p.data).filter (fun c => c != [] && c != ['.'])).getLast? with
  | none =>
    rw [fileName, h2] at h
    cases h
  | some comp =>
    have hred : fileName p = if comp = ['.', '.'] then none else some (String.mk comp) := by
      rw [fileName, h2]
    rw [hred] at h
    by_cases hdots : comp = ['.', '.']
    · rw [if_pos hdots] at h; cases h
    · rw [if_neg hdots] at h
      have hs : String.mk comp = s := by injection h
      subst hs
      have hmem : comp ∈ (splitChar '/' p.data).filter (fun c => c != [] && c != ['.']) :=
        mem_of_getLast?_eq h2
      exact splitChar_not_mem '/' p.data comp (List.mem_of_mem_filter hmem)

theorem dirName_no_slash (p : String) : '/' ∉ ((fileName p).getD "unknown").data := by
  cases h : fileName p with
  | none => decide
  | some s => simpa using fileName_no_slash p s h

theorem betweenParens_eq (pre np rest : List Char) (hpre : '(' ∉ pre) (hnp : ')' ∉ np) :
    betweenParens (pre ++ '(' :: (np ++ ')' :: rest)) = some np := by
  simp only [betweenParens, breakAtChar_append_cons '(' pre _ hpre,
    breakAtChar_append_cons ')' np rest hnp]

theorem betweenParens_generate (cd rv d : String)
    (hv : '(' ∉ rv.data) (hnp : ')' ∉ (namePart cd).data) :
    betweenParens (generate_interpreter_name cd rv d).data = some (namePart cd).data := by
  have hpre : '(' ∉ ("Ruby ".data ++ rv.data ++ [' ']) := by
    intro hmem
    rcases List.mem_append.mp hmem with h3 | h3
    · rcases List.mem_append.mp h3 with h4 | h4
      · revert h4; decide
      · exact hv h4
    · revert h3; decide
  have hdata : (generate_interpreter_name cd rv d).data =
      ("Ruby ".data ++ rv.data ++ [' ']) ++
        '(' :: ((namePart cd).data ++ ')' :: (" + shadowenv ".data ++ d.data)) := by
    rw [generate_interpreter_name]
    simp only [String.data_append]
    simp
  rw [hdata, betweenParens_eq _ _ _ hpre hnp]

theorem isSame_of_key (i : RubyMineInterpreter) (name : String)
    (h : betweenParens name.data = some (namePart i.current_dir).data) :
    is_same_worktree_interpreter i name = true := by
  cases hap : afterPat "/trees/".data i.current_dir.data with
  | some after =>
    cases hbr : breakAtChar '/' after with
    | some wr =>
      obtain ⟨w, r⟩ := wr
      have hnp : namePart i.current_dir
          = String.mk w ++ "/" ++ (fileName i.current_dir).getD "unknown" := by
        simp only [namePart, hap, hbr]
      have hwt : extract_worktree_name i.current_dir = String.mk w := by
        simp only [extract_worktree_name, hap, hbr]
      have hw : '/' ∉ w := (breakAtChar_some_spec '/' after w r hbr).1
      have hdata : (namePart i.current_dir).data
          = w ++ '/' :: ((fileName i.current_dir).getD "unknown").data := by
        rw [hnp]
        simp [String.data_append]
      simp only [is_same_worktree_interpreter, h, hdata,
        breakAtChar_append_cons '/' w _ hw, hwt]
      simp
    | none =>
      have hnp : namePart i.current_dir
          = String.mk after ++ "/" ++ (fileName i.current_dir).getD "unknown" := by
        simp only [namePart, hap, hbr]
      have hwt : extract_worktree_name i.current_dir = String.mk after := by
        simp only [extract_worktree_name, hap, hbr]
      have hw : '/' ∉ after := (breakAtChar_eq_none_iff '/' after).mp hbr
      have hdata : (namePart i.current_dir).data
          = after ++ '/' :: ((fileName i.current_dir).getD "unknown").data := by
        rw [hnp]
        simp [String.data_append]
      simp only [is_same_worktree_interpreter, h, hdata,
        breakAtChar_append_cons '/' after _ hw, hwt]
      simp
  | none =>
    have hnp : namePart i.current_dir = (fileName i.current_dir).getD "unknown" := by
      simp only [namePart, hap]
    have hwt : extract_worktree_name i.current_dir
        = (fileName i.current_dir).getD "unknown" := by
      simp only [extract_worktree_name, hap]
    have hbr : breakAtChar '/' ((fileName i.current_dir).getD "unknown").data = none :=
      (breakAtChar_eq_none_iff '/' _).mpr (dirName_no_slash i.current_dir)
    simp only [is_same_worktree_interpreter, h, hnp, hbr, hwt, string_mk_data]
    simp

theorem writeChildrenWI_cons (i : RubyMineInterpreter) (b : Bool) (c : XNode) (cs : List XNode) :
    writeChildrenWI i b (c :: cs) = writeChildWI i b c ++ writeChildrenWI i b cs := by
  cases c <;> rfl

theorem writeEWI_container (i : RubyMineInterpreter) (a : List (String × String)) (cs : List XNode)
    (ha : attrLookup a "name" = some "ProjectJdkTable") :
    write_element_with_interpreter i (XNode.element "component" a cs) =
      [XNode.element "component" a
        (writeChildrenWI i true cs ++ [write_shadowenv_interpreter i])] := by
  simp [write_element_with_interpreter, ha]

theorem writeEWI_not_container (i : RubyMineInterpreter) (t : String)
    (a : List (String × String)) (cs : List XNode)
    (hb : (t == "component" && attrLookup a "name" == some "ProjectJdkTable") = false) :
    write_element_with_interpreter i (XNode.element t a cs) =
      [XNode.element t a (writeChildrenWI i false cs)] := by
  simp [write_element_with_interpreter, hb]

theorem firstNameValueList_append (xs ys : List XNode) :
    firstNameValueList (xs ++ ys) =
      match firstNameValueList xs with
      | some v => some v
      | none => firstNameValueList ys := by
  induction xs with
  | nil => simp [firstNameValueList]
  | cons c cs ih =>
    rw [List.cons_append, firstNameValueList, firstNameValueList, ih]
    cases firstNameValue c <;> simp

theorem pjtFreeList_append (xs ys : List XNode) :
    pjtFreeList (xs ++ ys) = (pjtFreeList xs && pjtFreeList ys) := by
  induction xs with
  | nil => simp [pjtFreeList]
  | cons c cs ih =>
    rw [List.cons_append, pjtFreeList, pjtFreeList, ih, Bool.and_assoc]

theorem commentPIFreeList_append (xs ys : List XNode) :
    commentPIFreeList (xs ++ ys) = (commentPIFreeList xs && commentPIFreeList ys) := by
  induction xs with
  | nil => simp [commentPIFreeList]
  | cons c cs ih =>
    rw [List.cons_append, commentPIFreeList, commentPIFreeList, ih, Bool.and_assoc]

theorem elemsOfList_append (xs ys : List XNode) :
    elemsOfList (xs ++ ys) = elemsOfList xs ++ elemsOfList ys := by
  induction xs with
  | nil => simp [elemsOfList]
  | cons c cs ih =>
    rw [List.cons_append, elemsOfList, elemsOfList, ih, List.append_assoc]

mutual
theorem writeChildWI_pjtFree (i : RubyMineInterpreter) :
    ∀ n : XNode, pjtFreeNode n = true → writeChildWI i false n = normalizeNode n
  | .element t a k => fun h => by
    have hparts := h
    simp only [pjtFreeNode, Bool.and_eq_true, Bool.not_eq_true'] at hparts
    obtain ⟨hb, hk⟩ := hparts
    rw [writeChildWI]
    simp only [Bool.false_and, Bool.false_and, if_neg (by simp : ¬(false = true))]
    rw [writeEWI_not_container i t a k hb, normalizeNode,
      writeChildrenWI_pjtFreeList i k hk]
  | .text s => fun _ => rfl
  | .comment _ => fun _ => rfl
  | .pi _ => fun _ => rfl

theorem writeChildrenWI_pjtFreeList (i : RubyMineInterpreter) :
    ∀ cs : List XNode, pjtFreeList cs = true → writeChildrenWI i false cs = normalizeList cs
  | [] => fun _ => rfl
  | c :: cs => fun h => by
    have hparts := h
    simp only [pjtFreeList, Bool.and_eq_true] at hparts
    obtain ⟨hc, hcs⟩ := hparts
    rw [writeChildrenWI_cons, writeChildWI_pjtFree i c hc,
      writeChildrenWI_pjtFreeList i cs hcs, normalizeList]
end

theorem writeEWI_pjtFree (i : RubyMineInterpreter) (t : String)
    (a : List (String × String)) (cs : List XNode)
    (h : pjtFreeNode (XNode.element t a cs) = true) :
    write_element_with_interpreter i (XNode.element t a cs) =
      [XNode.element t a (normalizeList cs)] := by
  have hparts := h
  simp only [pjtFreeNode, Bool.and_eq_true, Bool.not_eq_true'] at hparts
  obtain ⟨hb, hcs⟩ := hparts
  rw [writeEWI_not_container i t a cs hb, writeChildrenWI_pjtFreeList i cs hcs]

mutual
theorem firstNameValue_normalizeNode :
    ∀ n : XNode, firstNameValueList (normalizeNode n) = firstNameValue n
  | .element t a cs => by
    rw [normalizeNode, firstNameValueList, firstNameValue, firstNameValue]
    by_cases hc : (t == "name" && (attrLookup a "value").isSome) = true
    · rw [if_pos hc, if_pos hc]
      cases attrLookup a "value" <;> simp [firstNameValueList]
    · rw [if_neg hc, if_neg hc, firstNameValueList_normalizeList cs]
      cases firstNameValueList cs <;> simp [firstNameValueList]
  | .text s => by
    rw [normalizeNode]
    by_cases hb : isBlank s = true
    · rw [if_pos hb]; rfl
    · rw [if_neg hb]; rfl
  | .comment _ => rfl
  | .pi _ => rfl

theorem firstNameValueList_normalizeList :
    ∀ cs : List XNode, firstNameValueList (normalizeList cs) = firstNameValueList cs
  | [] => rfl
  | c :: cs => by
    rw [normalizeList, firstNameValueList_append, firstNameValue_normalizeNode c,
      firstNameValueList_normalizeList cs, firstNameValueList]
end

mutual
theorem pjtFree_normalizeNode :
    ∀ n : XNode, pjtFreeNode n = true → pjtFreeList (normalizeNode n) = true
  | .element t a cs => fun h => by
    have hparts := h
    simp only [pjtFreeNode, Bool.and_eq_true, Bool.not_eq_true'] at hparts
    obtain ⟨hb, hcs⟩ := hparts
    rw [normalizeNode, pjtFreeList, pjtFreeNode, hb, pjtFree_normalizeList cs hcs]
    rfl
  | .text s => fun _ => by
    rw [normalizeNode]
    by_cases hb : isBlank s = true
    · rw [if_pos hb]; rfl
    · rw [if_neg hb]; rfl
  | .comment _ => fun _ => rfl
  | .pi _ => fun _ => rfl

theorem pjtFree_normalizeList :
    ∀ cs : List XNode, pjtFreeList cs = true → pjtFreeList (normalizeList cs) = true
  | [] => fun _ => rfl
  | c :: cs => fun h => by
    have hparts := h
    simp only [pjtFreeList, Bool.and_eq_true] at hparts
    obtain ⟨hc, hcs⟩ := hparts
    rw [normalizeList, pjtFreeList_append, pjtFree_normalizeNode c hc,
      pjtFree_normalizeList cs hcs]
    rfl
end

theorem firstNameValue_entry (i : RubyMineInterpreter) :
    firstNameValue (write_shadowenv_interpreter i) = some i.interpreter_name := rfl

theorem entry_isJdk (i : RubyMineInterpreter) :
    isJdkElem (write_shadowenv_interpreter i) = true := rfl

theorem entry_pjtFree (i : RubyMineInterpreter) :
    pjtFreeNode (write_shadowenv_interpreter i) = true := rfl

theorem entry_commentPIFree (i : RubyMineInterpreter) :
    commentPIFreeList [write_shadowenv_interpreter i] = true := rfl

theorem entry_elems_not_pjt (i : RubyMineInterpreter) :
    ∀ e ∈ elemsOfNode (write_shadowenv_interpreter i), isPJTNode e = false := by
  have hall : (elemsOfNode (write_shadowenv_interpreter i)).all
      (fun e => !(isPJTNode e)) = true := rfl
  intro e he
  have := List.all_eq_true.mp hall e he
  simpa using this

mutual
theorem cpf_writeEWI (i : RubyMineInterpreter) :
    ∀ n : XNode, commentPIFreeList (write_element_with_interpreter i n) = true
  | .element t a cs => by
    by_cases hb : (t == "component" && attrLookup a "name" == some "ProjectJdkTable") = true
    · have heq : write_element_with_interpreter i (.element t a cs) =
          [XNode.element t a
            (writeChildrenWI i true cs ++ [write_shadowenv_interpreter i])] := by
        simp [write_element_with_interpreter, hb]
      rw [heq, commentPIFreeList, commentPIFreeNode, commentPIFreeList_append,
        cpf_writeChildren i true cs, entry_commentPIFree i]
      rfl
    · rw [writeEWI_not_container i t a cs (by simpa using hb), commentPIFreeList,
        commentPIFreeNode, cpf_writeChildren i false cs]
      rfl
  | .text _ => rfl
  | .comment _ => rfl
  | .pi _ => rfl

theorem cpf_writeChildren (i : RubyMineInterpreter) :
    ∀ (b : Bool) (cs : List XNode), commentPIFreeList (writeChildrenWI i b cs) = true
  | _, [] => rfl
  | b, .element t a k :: cs => by
    rw [writeChildrenWI_cons, commentPIFreeList_append, cpf_writeChildren i b cs,
      Bool.and_true]
    rw [writeChildWI]
    split
    · rfl
    · exact cpf_writeEWI i (.element t a k)
  | b, .text s :: cs => by
    rw [writeChildrenWI_cons, commentPIFreeList_append, cpf_writeChildren i b cs,
      Bool.and_true]
    rw [writeChildWI]
    split
    · rfl
    · rfl
  | b, .comment s :: cs => by
    rw [writeChildrenWI_cons, commentPIFreeList_append, cpf_writeChildren i b cs,
      Bool.and_true]
    rfl
  | b, .pi s :: cs => by
    rw [writeChildrenWI_cons, commentPIFreeList_append, cpf_writeChildren i b cs,
      Bool.and_true]
    rfl
end

mutual
theorem pjt_elems_end_entry_node (i : RubyMineInterpreter) :
    ∀ n : XNode, ∀ e ∈ elemsOfList (write_element_with_interpreter i n),
      isPJTNode e = true →
      ∃ t a ws, e = XNode.element t a (ws ++ [write_shadowenv_interpreter i])
  | .element t a cs => by
    intro e he hp
    by_cases hb : (t == "component" && attrLookup a "name" == some "ProjectJdkTable") = true
    · have heq : write_element_with_interpreter i (.element t a cs) =
          [XNode.element t a
            (writeChildrenWI i true cs ++ [write_shadowenv_interpreter i])] := by
        simp [write_element_with_interpreter, hb]
      rw [heq] at he
      simp only [elemsOfList, List.append_nil] at he
      rw [elemsOfNode] at he
      rcases List.mem_cons.mp he with rfl | hin
      · exact ⟨t, a, writeChildrenWI i true cs, rfl⟩
      · rw [elemsOfList_append] at hin
        rcases List.mem_append.mp hin with h1 | h1
        · exact pjt_elems_end_entry_list i true cs e h1 hp
        · simp only [elemsOfList, List.append_nil] at h1
          rw [entry_elems_not_pjt i e h1] at hp
          cases hp
    · rw [writeEWI_not_container i t a cs (by simpa using hb)] at he
      simp only [elemsOfList, List.append_nil] at he
      rw [elemsOfNode] at he
      rcases List.mem_cons.mp he with rfl | hin
      · rw [isPJTNode] at hp
        exact absurd hp hb
      · exact pjt_elems_end_entry_list i false cs e hin hp
  | .text s => by
    intro e he hp
    simp [write_element_with_interpreter, elemsOfList] at he
  | .comment s => by
    intro e he hp
    simp [write_element_with_interpreter, elemsOfList] at he
  | .pi s => by
    intro e he hp
    simp [write_element_with_interpreter, elemsOfList] at he

theorem pjt_elems_end_entry_list (i : RubyMineInterpreter) :
    ∀ (b : Bool) (cs : List XNode), ∀ e ∈ elemsOfList (writeChildrenWI i b cs),
      isPJTNode e = true →
      ∃ t a ws, e = XNode.element t a (ws ++ [write_shadowenv_interpreter i])
  | _, [] => by
    intro e he hp
    simp [writeChildrenWI, elemsOfList] at he
  | b, .element t a k :: cs => by
    intro e he hp
    rw [writeChildrenWI_cons, elemsOfList_append] at he
    rcases List.mem_append.mp he with h1 | h1
    · simp only [writeChildWI] at h1
      split at h1
      · simp [elemsOfList] at h1
      · exact pjt_elems_end_entry_node i (.element t a k) e h1 hp
    · exact pjt_elems_end_entry_list i b cs e h1 hp
  | b, .text s :: cs => by
    intro e he hp
    rw [writeChildrenWI_cons, elemsOfList_append] at he
    rcases List.mem_append.mp he with h1 | h1
    · simp only [writeChildWI] at h1
      split at h1 <;> simp [elemsOfList, elemsOfNode] at h1
    · exact pjt_elems_end_entry_list i b cs e h1 hp
  | b, .comment s :: cs => by
    intro e he hp
    rw [writeChildrenWI_cons, elemsOfList_append] at he
    rcases List.mem_append.mp he with h1 | h1
    · simp only [writeChildWI] at h1
      simp [elemsOfList] at h1
    · exact pjt_elems_end_entry_list i b cs e h1 hp
  | b, .pi s :: cs => by
    intro e he hp
    rw [writeChildrenWI_cons, elemsOfList_append] at he
    rcases List.mem_append.mp he with h1 | h1
    · simp only [writeChildWI] at h1
      simp [elemsOfList] at h1
    · exact pjt_elems_end_entry_list i b cs e h1 hp
end

theorem trigger_cond_false (n v : String) (h : ¬(n = "NAME" ∧ v = "RUBY_ARGS")) :
    (true && n == "NAME" && v == "RUBY_ARGS") = false := by
  by_cases h1 : n = "NAME"
  · by_cases h2 : v = "RUBY_ARGS"
    · exact absurd ⟨h1, h2⟩ h
    · simp [h1, h2]
  · simp [h1]

theorem wwAttrs_not_target (ra : String) (all : List (String × String)) :
    ∀ rest : List (String × String), wwAttrs false ra all rest = (rest, false) := by
  intro rest
  induction rest with
  | nil => rfl
  | cons p ps ih =>
    obtain ⟨n, v⟩ := p
    simp [wwAttrs, ih]

theorem wwAttrs_no_trigger (ra : String) (all : List (String × String)) :
    ∀ rest : List (String × String),
      (∀ p ∈ rest, ¬(p.1 = "NAME" ∧ p.2 = "RUBY_ARGS")) →
      wwAttrs true ra all rest = (rest, false) := by
  intro rest
  induction rest with
  | nil => intro _; rfl
  | cons p ps ih =>
    intro h
    obtain ⟨n, v⟩ := p
    have hcond := trigger_cond_false n v (h (n, v) (List.mem_cons_self _ _))
    have hps := ih (fun p hp => h p (List.mem_cons_of_mem _ hp))
    simp only [wwAttrs, hcond, Bool.false_eq_true, if_false, hps]

theorem wwAttrs_trigger (ra : String) (all : List (String × String)) :
    ∀ (pre post : List (String × String)),
      (∀ p ∈ pre, ¬(p.1 = "NAME" ∧ p.2 = "RUBY_ARGS")) →
      wwAttrs true ra all (pre ++ ("NAME", "RUBY_ARGS") :: post) =
        (pre ++ ("NAME", "RUBY_ARGS") :: ("VALUE", ra) ::
          all.filter (fun a => a.1 != "NAME" && a.1 != "VALUE"), true) := by
  intro pre
  induction pre with
  | nil =>
    intro post _
    rw [List.nil_append, List.nil_append]
    simp [wwAttrs]
  | cons p ps ih =>
    intro post h
    obtain ⟨n, v⟩ := p
    have hcond := trigger_cond_false n v (h (n, v) (List.mem_cons_self _ _))
    have hps := ih post (fun p hp => h p (List.mem_cons_of_mem _ hp))
    simp only [List.cons_append, wwAttrs, hcond, Bool.false_eq_true, if_false]
    simp [hps]

theorem any_trigger_false {a : List (String × String)}
    (h : a.any (fun p => p.1 == "NAME" && p.2 == "RUBY_ARGS") = false) :
    ∀ p ∈ a, ¬(p.1 = "NAME" ∧ p.2 = "RUBY_ARGS") := by
  intro p hp hcontra
  obtain ⟨h1, h2⟩ := hcontra
  have h4 : a.any (fun p => p.1 == "NAME" && p.2 == "RUBY_ARGS") = true := by
    rw [List.any_eq_true]
    exact ⟨p, hp, by simp [h1, h2]⟩
  rw [h] at h4
  cases h4

mutual
theorem ww_flag_of_no_target (ra : String) :
    ∀ n : XNode, hasRubyArgsTarget n = false → (write_workspace_element ra n).2 = false
  | .element t a cs => fun h => by
    have hparts := h
    simp only [hasRubyArgsTarget, Bool.or_eq_false_iff] at hparts
    obtain ⟨h1, h2⟩ := hparts
    have hkids := ww_flag_list_of_no_target ra cs h2
    by_cases ht : (t == "RTEST_RUN_CONFIG_SETTINGS_ID") = true
    · have hany : a.any (fun p => p.1 == "NAME" && p.2 == "RUBY_ARGS") = false := by
        rw [ht] at h1
        simpa using h1
      have hww := wwAttrs_no_trigger ra a a (any_trigger_false hany)
      simp only [write_workspace_element, ht, hww]
      cases hrec : writeWorkspaceChildren ra cs with
      | mk ks b => rw [hrec] at hkids; simpa using hkids
    · have htf : (t == "RTEST_RUN_CONFIG_SETTINGS_ID") = false := by
        simpa using ht
      have hww := wwAttrs_not_target ra a a
      simp only [write_workspace_element, htf, hww]
      cases hrec : writeWorkspaceChildren ra cs with
      | mk ks b => rw [hrec] at hkids; simpa using hkids
  | .text s => fun _ => by
    rw [write_workspace_element]
    split <;> rfl
  | .comment _ => fun _ => rfl
  | .pi _ => fun _ => rfl

theorem ww_flag_list_of_no_target (ra : String) :
    ∀ cs : List XNode, hasRubyArgsTargetList cs = false →
      (writeWorkspaceChildren ra cs).2 = false
  | [] => fun _ => rfl
  | c :: cs => fun h => by
    have hparts := h
    simp only [hasRubyArgsTargetList, Bool.or_eq_false_iff] at hparts
    obtain ⟨h1, h2⟩ := hparts
    have hc := ww_flag_of_no_target ra c h1
    have hcs := ww_flag_list_of_no_target ra cs h2
    rw [writeWorkspaceChildren]
    cases hr1 : write_workspace_element ra c with
    | mk o b1 =>
      cases hr2 : writeWorkspaceChildren ra cs with
      | mk os b2 =>
        rw [hr1] at hc
        rw [hr2] at hcs
        simp at hc hcs
        simp [hc, hcs]
end

theorem writeEWI_shape (i : RubyMineInterpreter) (t : String)
    (a : List (String × String)) (cs : List XNode) :
    ∃ ks, write_element_with_interpreter i (XNode.element t a cs) = [XNode.element t a ks] := by
  by_cases hb : (t == "component" && attrLookup a "name" == some "ProjectJdkTable") = true
  · refine ⟨writeChildrenWI i true cs ++ [write_shadowenv_interpreter i], ?_⟩
    simp [write_element_with_interpreter, hb]
  · exact ⟨_, writeEWI_not_container i t a cs (by simpa using hb)⟩

theorem entryKey_entry (i : RubyMineInterpreter) :
    entryKey (write_shadowenv_interpreter i) = betweenParens i.interpreter_name.data := by
  simp only [entryKey, firstNameValue_entry]

theorem entryKey_normalized (a : List (String × String)) (k : List XNode) :
    entryKey (XNode.element "jdk" a (normalizeList k)) =
      entryKey (XNode.element "jdk" a k) := by
  simp only [entryKey, firstNameValue]
  have hname : (("jdk" : String) == "name") = false := by decide
  simp only [hname, Bool.false_and, Bool.false_eq_true, if_false,
    firstNameValueList_normalizeList]

theorem countP_writeChildren_zero (i : RubyMineInterpreter) (np : List Char) (cs : List XNode)
    (hm : ∀ v : String, betweenParens v.data = some np →
      is_same_worktree_interpreter i v = true)
    (hclean : ∀ t a k, XNode.element t a k ∈ cs → t = "jdk" → pjtFreeList k = true) :
    List.countP (fun c => isJdkElem c && decide (entryKey c = some np))
      (writeChildrenWI i true cs) = 0 := by
  induction cs with
  | nil => rfl
  | cons c cs ih =>
    rw [writeChildrenWI_cons, List.countP_append,
      ih (fun t a k hmem ht => hclean t a k (List.mem_cons_of_mem _ hmem) ht), Nat.add_zero]
    cases c with
    | text s =>
      rw [writeChildWI]
      split
      · rfl
      · simp [List.countP_cons, isJdkElem]
    | comment s => rfl
    | pi s => rfl
    | element t a k =>
      rw [writeChildWI]
      by_cases hsk : (true && (t == "jdk") &&
          (match firstNameValue (.element t a k) with
           | some v => is_same_worktree_interpreter i v
           | none => false)) = true
      · rw [if_pos hsk]; rfl
      · rw [if_neg hsk]
        by_cases ht : t = "jdk"
        · subst ht
          have hk := hclean "jdk" a k (List.mem_cons_self _ _) rfl
          have hfree : pjtFreeNode (XNode.element "jdk" a k) = true := by
            rw [pjtFreeNode]
            simp [hk]
          rw [writeEWI_pjtFree i "jdk" a k hfree]
          have hmatch : (match firstNameValue (XNode.element "jdk" a k) with
              | some v => is_same_worktree_interpreter i v
              | none => false) = false := by
            cases hX : (match firstNameValue (XNode.element "jdk" a k) with
                | some v => is_same_worktree_interpreter i v
                | none => false) with
            | false => rfl
            | true => exact absurd (by simp [hX]) hsk
          have hpred : (isJdkElem (XNode.element "jdk" a (normalizeList k)) &&
              decide (entryKey (XNode.element "jdk" a (normalizeList k)) = some np)) = false := by
            rw [entryKey_normalized a k]
            cases hfn : firstNameValue (XNode.element "jdk" a k) with
            | none =>
              have : entryKey (XNode.element "jdk" a k) = none := by
                simp only [entryKey, hfn]
              simp [this]
            | some v =>
              have hsame : is_same_worktree_interpreter i v = false := by
                rw [hfn] at hmatch
                exact hmatch
              have hkey : entryKey (XNode.element "jdk" a k) = betweenParens v.data := by
                simp only [entryKey, hfn]
              rw [hkey]
              by_cases hbp : betweenParens v.data = some np
              · rw [hm v hbp] at hsame
                cases hsame
              · simp [hbp]
          simp [List.countP_cons, hpred]
        · obtain ⟨ks, hks⟩ := writeEWI_shape i t a k
          rw [hks]
          have hpred : (isJdkElem (XNode.element t a ks) &&
              decide (entryKey (XNode.element t a ks) = some np)) = false := by
            have : isJdkElem (XNode.element t a ks) = false := by
              simp [isJdkElem, ht]
            simp [this]
          simp [List.countP_cons, hpred]

theorem clean_after_writeChildren (i : RubyMineInterpreter) (cs : List XNode)
    (hclean : ∀ t a k, XNode.element t a k ∈ cs → t = "jdk" → pjtFreeList k = true) :
    ∀ t a k, XNode.element t a k ∈ writeChildrenWI i true cs → t = "jdk" →
      pjtFreeList k = true := by
  induction cs with
  | nil => intro t a k hmem _; simp [writeChildrenWI] at hmem
  | cons c cs ih =>
    intro t a k hmem ht
    rw [writeChildrenWI_cons] at hmem
    rcases List.mem_append.mp hmem with h1 | h1
    · cases c with
      | text s =>
        rw [writeChildWI] at h1
        split at h1 <;> simp at h1
      | comment s => simp [writeChildWI] at h1
      | pi s => simp [writeChildWI] at h1
      | element t2 a2 k2 =>
        rw [writeChildWI] at h1
        split at h1
        · simp at h1
        · by_cases ht2 : t2 = "jdk"
          · subst ht2
            have hk2 := hclean "jdk" a2 k2 (List.mem_cons_self _ _) rfl
            have hfree : pjtFreeNode (XNode.element "jdk" a2 k2) = true := by
              rw [pjtFreeNode]
              simp [hk2]
            rw [writeEWI_pjtFree i "jdk" a2 k2 hfree] at h1
            simp only [List.mem_singleton, XNode.element.injEq] at h1
            obtain ⟨rfl, _, rfl⟩ := h1
            exact pjtFree_normalizeList k2 hk2
          · obtain ⟨ks, hks⟩ := writeEWI_shape i t2 a2 k2
            rw [hks] at h1
            simp only [List.mem_singleton, XNode.element.injEq] at h1
            obtain ⟨rfl, _, _⟩ := h1
            exact absurd ht ht2
    · exact ih (fun t a k hmem2 ht2 =>
        hclean t a k (List.mem_cons_of_mem _ hmem2) ht2) t a k h1 ht

theorem countP_merged_children (i : RubyMineInterpreter) (np : List Char) (cs : List XNode)
    (hm : ∀ v : String, betweenParens v.data = some np →
      is_same_worktree_interpreter i v = true)
    (hclean : ∀ t a k, XNode.element t a k ∈ cs → t = "jdk" → pjtFreeList k = true)
    (hk : betweenParens i.interpreter_name.data = some np) :
    List.countP (fun c => isJdkElem c && decide (entryKey c = some np))
      (writeChildrenWI i true cs ++ [write_shadowenv_interpreter i]) = 1 := by
  rw [List.countP_append, countP_writeChildren_zero i np cs hm hclean]
  have hpred : (isJdkElem (write_shadowenv_interpreter i) &&
      decide (entryKey (write_shadowenv_interpreter i) = some np)) = true := by
    rw [entry_isJdk]
    have : entryKey (write_shadowenv_interpreter i) = some np := by
      rw [entryKey_entry, hk]
    simp [this]
  simp [List.countP_cons, hpred]

theorem ww_trigger_elem (ra : String) (pre post : List (String × String)) (kids : List XNode)
    (hpre : ∀ p ∈ pre, ¬(p.1 = "NAME" ∧ p.2 = "RUBY_ARGS")) :
    write_workspace_element ra
      (XNode.element "RTEST_RUN_CONFIG_SETTINGS_ID"
        (pre ++ ("NAME", "RUBY_ARGS") :: post) kids) =
      ([XNode.element "RTEST_RUN_CONFIG_SETTINGS_ID"
          (pre ++ ("NAME", "RUBY_ARGS") :: ("VALUE", ra) ::
            (pre ++ ("NAME", "RUBY_ARGS") :: post).filter
              (fun a => a.1 != "NAME" && a.1 != "VALUE")) []], true) := by
  have hww := wwAttrs_trigger ra (pre ++ ("NAME", "RUBY_ARGS") :: post) pre post hpre
  simp only [write_workspace_element, beq_self_eq_true, hww]

/-- C1: the claim says a direct child of the located container is removed
iff its tag is `jdk` and its full derived `{scope}/{leaf}` identity key
equals the new entry's key.  On the code this is false: with current
directory `/trees/main/app` (key `main/app`), the existing entry whose
key is `main/other` — a different key — is still removed, because
`is_same_worktree_interpreter` compares only the scope part before the
slash. -/
theorem c1_counterexample :
    entryKey (XNode.element "jdk" [("version", "2")]
        [XNode.element "name"
          [("value", "Ruby 3.2.0 (main/other) + shadowenv 2024-01-01")] []]) =
      some "main/other".data ∧
    betweenParens ("Ruby 3.2.0 (main/app) + shadowenv 2024-06-01").data =
      some "main/app".data ∧
    "main/other".data ≠ "main/app".data ∧
    write_element_with_interpreter
      (RubyMineInterpreter.mk "/usr/bin/ruby" "/opt/rubies/3.2.0/bin/ruby" "3.2.0"
        "Ruby 3.2.0 (main/app) + shadowenv 2024-06-01" "/trees/main/app"
        "/opt/homebrew/bin/shadowenv" false)
      (XNode.element "component" [("name", "ProjectJdkTable")]
        [XNode.element "jdk" [("version", "2")]
          [XNode.element "name"
            [("value", "Ruby 3.2.0 (main/other) + shadowenv 2024-01-01")] []]]) =
      [XNode.element "component" [("name", "ProjectJdkTable")]
        [write_shadowenv_interpreter
          (RubyMineInterpreter.mk "/usr/bin/ruby" "/opt/rubies/3.2.0/bin/ruby" "3.2.0"
            "Ruby 3.2.0 (main/app) + shadowenv 2024-06-01" "/trees/main/app"
            "/opt/homebrew/bin/shadowenv" false)]] :=
  ⟨by rfl, by rfl, by decide, by rfl⟩

/-- C1 (amended): during a merge into the located container the new entry
is appended last and a direct `jdk` child whose display name parses to a
`{scope}/{leaf}` path part is removed iff its scope part alone equals the
current worktree — the leaf is ignored, so equality of the full identity
key is not required for removal.  Same-tag children whose scope differs
are emitted in their original relative order. -/
theorem c1_amended (i : RubyMineInterpreter) (a : List (String × String)) (cs : List XNode)
    (ja : List (String × String)) (jk : List XNode) (v : String) (s r : List Char)
    (hattr : attrLookup a "name" = some "ProjectJdkTable")
    (hname : firstNameValue (XNode.element "jdk" ja jk) = some v)
    (hpp : betweenParens v.data = some (s ++ '/' :: r))
    (hs : '/' ∉ s) :
    write_element_with_interpreter i (XNode.element "component" a cs) =
      [XNode.element "component" a
        (writeChildrenWI i true cs ++ [write_shadowenv_interpreter i])] ∧
    (writeChildWI i true (XNode.element "jdk" ja jk) = [] ↔
      String.mk s = extract_worktree_name i.current_dir) := by
  refine ⟨writeEWI_container i a cs hattr, ?_⟩
  have hsame : is_same_worktree_interpreter i v =
      (String.mk s == extract_worktree_name i.current_dir) := by
    simp only [is_same_worktree_interpreter, hpp, breakAtChar_append_cons '/' s r hs]
  simp only [writeChildWI, hname, hsame, beq_self_eq_true, Bool.true_and]
  by_cases heq : String.mk s = extract_worktree_name i.current_dir
  · simp [heq]
  · have hbeq : (String.mk s == extract_worktree_name i.current_dir) = false := by
      simp [heq]
    obtain ⟨ks, hks⟩ := writeEWI_shape i "jdk" ja jk
    simp [hbeq, heq, hks]

/-- C1 amended, witness: the worktree `main` setting removes the
`main/other` entry (scope equal, leaf different), per the amended
removal condition. -/
theorem c1_amended_witness :
    (write_element_with_interpreter
      (RubyMineInterpreter.mk "/usr/bin/ruby" "/opt/rubies/3.2.0/bin/ruby" "3.2.0"
        "Ruby 3.2.0 (main/app) + shadowenv 2024-06-01" "/trees/main/app"
        "/opt/homebrew/bin/shadowenv" false)
      (XNode.element "component" [("name", "ProjectJdkTable")] []) =
      [XNode.element "component" [("name", "ProjectJdkTable")]
        (writeChildrenWI
          (RubyMineInterpreter.mk "/usr/bin/ruby" "/opt/rubies/3.2.0/bin/ruby" "3.2.0"
            "Ruby 3.2.0 (main/app) + shadowenv 2024-06-01" "/trees/main/app"
            "/opt/homebrew/bin/shadowenv" false) true [] ++
          [write_shadowenv_interpreter
            (RubyMineInterpreter.mk "/usr/bin/ruby" "/opt/rubies/3.2.0/bin/ruby" "3.2.0"
              "Ruby 3.2.0 (main/app) + shadowenv 2024-06-01" "/trees/main/app"
              "/opt/homebrew/bin/shadowenv" false)])]) ∧
    (writeChildWI
        (RubyMineInterpreter.mk "/usr/bin/ruby" "/opt/rubies/3.2.0/bin/ruby" "3.2.0"
          "Ruby 3.2.0 (main/app) + shadowenv 2024-06-01" "/trees/main/app"
          "/opt/homebrew/bin/shadowenv" false) true
        (XNode.element "jdk" [("version", "2")]
          [XNode.element "name"
            [("value", "Ruby 3.2.0 (main/other) + shadowenv 2024-01-01")] []]) = [] ↔
      String.mk "main".data =
        extract_worktree_name
          (RubyMineInterpreter.mk "/usr/bin/ruby" "/opt/rubies/3.2.0/bin/ruby" "3.2.0"
            "Ruby 3.2.0 (main/app) + shadowenv 2024-06-01" "/trees/main/app"
            "/opt/homebrew/bin/shadowenv" false).current_dir) :=
  c1_amended
    (RubyMineInterpreter.mk "/usr/bin/ruby" "/opt/rubies/3.2.0/bin/ruby" "3.2.0"
      "Ruby 3.2.0 (main/app) + shadowenv 2024-06-01" "/trees/main/app"
      "/opt/homebrew/bin/shadowenv" false)
    [("name", "ProjectJdkTable")] []
    [("version", "2")]
    [XNode.element "name"
      [("value", "Ruby 3.2.0 (main/other) + shadowenv 2024-01-01")] []]
    "Ruby 3.2.0 (main/other) + shadowenv 2024-01-01" "main".data "other".data
    (by rfl) (by rfl) (by rfl) (by decide)

/-- C2: the claim says that with more than one matching
`component[name="ProjectJdkTable"]` element, the entry is inserted into
only the first match in document order.  On the code this is false: the
rewriter appends the fresh entry to every matching component; here a
document with two matching containers receives the entry in both. -/
theorem c2_counterexample :
    write_element_with_interpreter
      (RubyMineInterpreter.mk "/usr/bin/ruby" "/opt/rubies/3.2.0/bin/ruby" "3.2.0"
        "Ruby 3.2.0 (main/app) + shadowenv 2024-06-01" "/trees/main/app"
        "/opt/homebrew/bin/shadowenv" false)
      (XNode.element "application" []
        [XNode.element "component" [("name", "ProjectJdkTable")] [],
         XNode.element "component" [("name", "ProjectJdkTable")] []]) =
      [XNode.element "application" []
        [XNode.element "component" [("name", "ProjectJdkTable")]
          [write_shadowenv_interpreter
            (RubyMineInterpreter.mk "/usr/bin/ruby" "/opt/rubies/3.2.0/bin/ruby" "3.2.0"
              "Ruby 3.2.0 (main/app) + shadowenv 2024-06-01" "/trees/main/app"
              "/opt/homebrew/bin/shadowenv" false)],
         XNode.element "component" [("name", "ProjectJdkTable")]
          [write_shadowenv_interpreter
            (RubyMineInterpreter.mk "/usr/bin/ruby" "/opt/rubies/3.2.0/bin/ruby" "3.2.0"
              "Ruby 3.2.0 (main/app) + shadowenv 2024-06-01" "/trees/main/app"
              "/opt/homebrew/bin/shadowenv" false)]]] := by
  rfl

/-- C2 (amended): the merge inserts the freshly built entry into every
element matching the container predicate, not only the first one in
document order: every ProjectJdkTable component element of the rewritten
output has the fresh entry as its last child. -/
theorem c2_amended (i : RubyMineInterpreter) (n e : XNode)
    (he : e ∈ elemsOfList (write_element_with_interpreter i n))
    (hp : isPJTNode e = true) :
    ∃ t a ws, e = XNode.element t a (ws ++ [write_shadowenv_interpreter i]) :=
  pjt_elems_end_entry_node i n e he hp

/-- C2 amended, witness: in the output for a one-container document, the
rewritten container element carries the fresh entry as its last child. -/
theorem c2_amended_witness :
    ∃ t a ws,
      XNode.element "component" [("name", "ProjectJdkTable")]
        [write_shadowenv_interpreter
          (RubyMineInterpreter.mk "/usr/bin/ruby" "/opt/rubies/3.2.0/bin/ruby" "3.2.0"
            "Ruby 3.2.0 (main/app) + shadowenv 2024-06-01" "/trees/main/app"
            "/opt/homebrew/bin/shadowenv" false)] =
        XNode.element t a
          (ws ++ [write_shadowenv_interpreter
            (RubyMineInterpreter.mk "/usr/bin/ruby" "/opt/rubies/3.2.0/bin/ruby" "3.2.0"
              "Ruby 3.2.0 (main/app) + shadowenv 2024-06-01" "/trees/main/app"
              "/opt/homebrew/bin/shadowenv" false)]) :=
  c2_amended
    (RubyMineInterpreter.mk "/usr/bin/ruby" "/opt/rubies/3.2.0/bin/ruby" "3.2.0"
      "Ruby 3.2.0 (main/app) + shadowenv 2024-06-01" "/trees/main/app"
      "/opt/homebrew/bin/shadowenv" false)
    (XNode.element "application" []
      [XNode.element "component" [("name", "ProjectJdkTable")] []])
    (XNode.element "component" [("name", "ProjectJdkTable")]
      [write_shadowenv_interpreter
        (RubyMineInterpreter.mk "/usr/bin/ruby" "/opt/rubies/3.2.0/bin/ruby" "3.2.0"
          "Ruby 3.2.0 (main/app) + shadowenv 2024-06-01" "/trees/main/app"
          "/opt/homebrew/bin/shadowenv" false)])
    (List.mem_cons_of_mem _ (List.mem_cons_self _ _))
    (by rfl)

/-- C3: the claim says that in a non-empty document with no matching
container, the merge creates the container as a new child of the root
and appends the entry, so the output always contains the entry.  On the
code this is false: rewriting an existing document without a
ProjectJdkTable component creates nothing — the output of a bare
`<application/>` root has no component and no jdk element at all. -/
theorem c3_counterexample :
    write_element_with_interpreter
      (RubyMineInterpreter.mk "/usr/bin/ruby" "/opt/rubies/3.2.0/bin/ruby" "3.2.0"
        "Ruby 3.2.0 (main/app) + shadowenv 2024-06-01" "/trees/main/app"
        "/opt/homebrew/bin/shadowenv" false)
      (XNode.element "application" [] []) = [XNode.element "application" [] []] ∧
    countTag "jdk"
      (write_element_with_interpreter
        (RubyMineInterpreter.mk "/usr/bin/ruby" "/opt/rubies/3.2.0/bin/ruby" "3.2.0"
          "Ruby 3.2.0 (main/app) + shadowenv 2024-06-01" "/trees/main/app"
          "/opt/homebrew/bin/shadowenv" false)
        (XNode.element "application" [] [])) = 0 ∧
    countTag "component"
      (write_element_with_interpreter
        (RubyMineInterpreter.mk "/usr/bin/ruby" "/opt/rubies/3.2.0/bin/ruby" "3.2.0"
          "Ruby 3.2.0 (main/app) + shadowenv 2024-06-01" "/trees/main/app"
          "/opt/homebrew/bin/shadowenv" false)
        (XNode.element "application" [] [])) = 0 :=
  ⟨rfl, rfl, rfl⟩

/-- C3 (amended): when the parsed document contains no element matching
the container predicate, the merge neither creates a container nor
inserts the entry: the rewritten output is exactly the normalization of
the input (elements, attributes and non-blank text kept; blank text,
comments and processing instructions dropped).  The creation path exists
only for an absent file. -/
theorem c3_amended (i : RubyMineInterpreter) (t : String) (a : List (String × String))
    (cs : List XNode) (h : pjtFreeNode (XNode.element t a cs) = true) :
    write_element_with_interpreter i (XNode.element t a cs) =
      [XNode.element t a (normalizeList cs)] :=
  writeEWI_pjtFree i t a cs h

/-- C3 amended, witness: a document whose only component has a different
name is rewritten to its own normalization, with no entry inserted. -/
theorem c3_amended_witness :
    write_element_with_interpreter
      (RubyMineInterpreter.mk "/usr/bin/ruby" "/opt/rubies/3.2.0/bin/ruby" "3.2.0"
        "Ruby 3.2.0 (main/app) + shadowenv 2024-06-01" "/trees/main/app"
        "/opt/homebrew/bin/shadowenv" false)
      (XNode.element "application" []
        [XNode.element "component" [("name", "Other")] []]) =
      [XNode.element "application" []
        (normalizeList [XNode.element "component" [("name", "Other")] []])] :=
  c3_amended
    (RubyMineInterpreter.mk "/usr/bin/ruby" "/opt/rubies/3.2.0/bin/ruby" "3.2.0"
      "Ruby 3.2.0 (main/app) + shadowenv 2024-06-01" "/trees/main/app"
      "/opt/homebrew/bin/shadowenv" false)
    "application" [] [XNode.element "component" [("name", "Other")] []]
    (by rfl)

/-- C4: the claim says every comment node and processing-instruction
node of the input is preserved unchanged in the merge output.  On the
code this is false: the rewriter re-emits only elements and non-blank
text, so a comment inside the root is dropped from the output. -/
theorem c4_counterexample :
    write_element_with_interpreter
      (RubyMineInterpreter.mk "/usr/bin/ruby" "/opt/rubies/3.2.0/bin/ruby" "3.2.0"
        "Ruby 3.2.0 (main/app) + shadowenv 2024-06-01" "/trees/main/app"
        "/opt/homebrew/bin/shadowenv" false)
      (XNode.element "application" []
        [XNode.comment " keep me ", XNode.element "x" [] []]) =
      [XNode.element "application" [] [XNode.element "x" [] []]] ∧
    commentPIFreeNode
      (XNode.element "application" []
        [XNode.comment " keep me ", XNode.element "x" [] []]) = false :=
  ⟨rfl, rfl⟩

/-- C4 (amended): the merge output never contains a comment or
processing-instruction node: the rewriter drops every comment and every
processing instruction of the input (only elements and non-blank text
survive, plus the appended entry, which contains neither). -/
theorem c4_amended (i : RubyMineInterpreter) (n : XNode) :
    commentPIFreeList (write_element_with_interpreter i n) = true :=
  cpf_writeEWI i n

/-- C5: the claim says the attribute patch copies every other attribute
of the matched element exactly once.  On the code this is false: an
attribute that precedes the `NAME="RUBY_ARGS"` attribute is written
twice — once while the loop walks up to the trigger and again by the
copy-through loop, which re-reads all attributes; here `FOO` appears
twice in the output. -/
theorem c5_counterexample :
    write_workspace_element "-Iall"
      (XNode.element "RTEST_RUN_CONFIG_SETTINGS_ID"
        [("FOO", "x"), ("NAME", "RUBY_ARGS"), ("VALUE", "old")] []) =
      ([XNode.element "RTEST_RUN_CONFIG_SETTINGS_ID"
          [("FOO", "x"), ("NAME", "RUBY_ARGS"), ("VALUE", "-Iall"), ("FOO", "x")] []],
        true) ∧
    ([("FOO", "x"), ("NAME", "RUBY_ARGS"), ("VALUE", "-Iall"), ("FOO", "x")].filter
        (fun p => p.1 == "FOO")).length = 2 :=
  ⟨rfl, rfl⟩

/-- C5 (amended): on a matched `RTEST_RUN_CONFIG_SETTINGS_ID` element
whose attributes split as `pre ++ NAME="RUBY_ARGS" :: post` with no
trigger in `pre`, the patch emits `pre`, then the rewritten
`NAME`/`VALUE` pair, then every attribute whose name is neither `NAME`
nor `VALUE` taken from the whole list again — so attributes in `pre`
are emitted twice, and only when `NAME` comes first is every other
attribute copied exactly once; the element is closed with no children.
The no-match half of the claim holds: a document with no matching
element yields the updated flag false and no backup/write action, and
no element is created. -/
theorem c5_amended (ra : String) (pre post : List (String × String)) (kids : List XNode)
    (doc : XNode)
    (hpre : ∀ p ∈ pre, ¬(p.1 = "NAME" ∧ p.2 = "RUBY_ARGS"))
    (hdoc : hasRubyArgsTarget doc = false) :
    write_workspace_element ra
      (XNode.element "RTEST_RUN_CONFIG_SETTINGS_ID"
        (pre ++ ("NAME", "RUBY_ARGS") :: post) kids) =
      ([XNode.element "RTEST_RUN_CONFIG_SETTINGS_ID"
          (pre ++ ("NAME", "RUBY_ARGS") :: ("VALUE", ra) ::
            (pre ++ ("NAME", "RUBY_ARGS") :: post).filter
              (fun a => a.1 != "NAME" && a.1 != "VALUE")) []], true) ∧
    (write_workspace_element ra doc).2 = false ∧
    (update_workspace_minitest_config ra doc).2 = [] := by
  have hflag := ww_flag_of_no_target ra doc hdoc
  refine ⟨ww_trigger_elem ra pre post kids hpre, hflag, ?_⟩
  rw [update_workspace_minitest_config]
  cases hr : write_workspace_element ra doc with
  | mk o b =>
    rw [hr] at hflag
    simp only at hflag
    simp [hflag]

/-- C5 amended, witness: a `FOO` attribute before the trigger is
duplicated, and a document with no matching element reports no update
and triggers no filesystem action. -/
theorem c5_amended_witness :
    (write_workspace_element (generate_ruby_args "/Applications/RubyMine.app")
      (XNode.element "RTEST_RUN_CONFIG_SETTINGS_ID"
        ([("FOO", "x")] ++ ("NAME", "RUBY_ARGS") :: [("VALUE", "old")])
        [XNode.element "kid" [] []]) =
      ([XNode.element "RTEST_RUN_CONFIG_SETTINGS_ID"
          ([("FOO", "x")] ++ ("NAME", "RUBY_ARGS") :: ("VALUE",
              generate_ruby_args "/Applications/RubyMine.app") ::
            ([("FOO", "x")] ++ ("NAME", "RUBY_ARGS") :: [("VALUE", "old")]).filter
              (fun a => a.1 != "NAME" && a.1 != "VALUE")) []], true)) ∧
    (write_workspace_element (generate_ruby_args "/Applications/RubyMine.app")
      (XNode.element "project" [] [XNode.element "component" [("name", "Other")] []])).2 =
      false ∧
    (update_workspace_minitest_config (generate_ruby_args "/Applications/RubyMine.app")
      (XNode.element "project" [] [XNode.element "component" [("name", "Other")] []])).2 =
      [] :=
  c5_amended (generate_ruby_args "/Applications/RubyMine.app")
    [("FOO", "x")] [("VALUE", "old")] [XNode.element "kid" [] []]
    (XNode.element "project" [] [XNode.element "component" [("name", "Other")] []])
    (by decide) (by rfl)

/-- C6: applying the merge twice (second facts differing from the first
only in the date inside the generated display name) to a prior container
whose `jdk` children carry no nested ProjectJdkTable component yields
exactly one direct child whose derived identity key is the new key: the
entry appended by the first run matches the second run's identity
predicate, is removed, and exactly the second run's fresh entry
remains. -/
theorem c6_idempotent (i1 i2 : RubyMineInterpreter) (a : List (String × String))
    (cs : List XNode) (d1 d2 : String) (np : List Char)
    (hdir : i1.current_dir = i2.current_dir)
    (hver : i1.ruby_version = i2.ruby_version)
    (hn1 : i1.interpreter_name =
      generate_interpreter_name i1.current_dir i1.ruby_version d1)
    (hn2 : i2.interpreter_name =
      generate_interpreter_name i2.current_dir i2.ruby_version d2)
    (hv : '(' ∉ i2.ruby_version.data)
    (hnp : np = (namePart i2.current_dir).data)
    (hclose : ')' ∉ (namePart i2.current_dir).data)
    (hattr : attrLookup a "name" = some "ProjectJdkTable")
    (hclean : ∀ t a2 k, XNode.element t a2 k ∈ cs → t = "jdk" → pjtFreeList k = true) :
    write_element_with_interpreter i1 (XNode.element "component" a cs) =
      [XNode.element "component" a
        (writeChildrenWI i1 true cs ++ [write_shadowenv_interpreter i1])] ∧
    write_element_with_interpreter i2
      (XNode.element "component" a
        (writeChildrenWI i1 true cs ++ [write_shadowenv_interpreter i1])) =
      [XNode.element "component" a
        (writeChildrenWI i2 true
            (writeChildrenWI i1 true cs ++ [write_shadowenv_interpreter i1]) ++
          [write_shadowenv_interpreter i2])] ∧
    List.countP (fun c => isJdkElem c && decide (entryKey c = some np))
      (writeChildrenWI i2 true
          (writeChildrenWI i1 true cs ++ [write_shadowenv_interpreter i1]) ++
        [write_shadowenv_interpreter i2]) = 1 := by
  refine ⟨writeEWI_container i1 a cs hattr, writeEWI_container i2 a _ hattr, ?_⟩
  have hk2 : betweenParens i2.interpreter_name.data = some np := by
    rw [hn2, hnp]
    exact betweenParens_generate i2.current_dir i2.ruby_version d2 hv hclose
  have hm : ∀ v : String, betweenParens v.data = some np →
      is_same_worktree_interpreter i2 v = true := by
    intro v hvp
    rw [hnp] at hvp
    exact isSame_of_key i2 v hvp
  have hclean1 : ∀ t a2 k,
      XNode.element t a2 k ∈
        writeChildrenWI i1 true cs ++ [write_shadowenv_interpreter i1] →
      t = "jdk" → pjtFreeList k = true := by
    intro t a2 k hmem ht
    rcases List.mem_append.mp hmem with h1 | h1
    · exact clean_after_writeChildren i1 cs hclean t a2 k h1 ht
    · have heq := List.mem_singleton.mp h1
      have hfree : pjtFreeNode (XNode.element t a2 k) = true := by
        rw [heq]
        exact entry_pjtFree i1
      simp only [pjtFreeNode, Bool.and_eq_true] at hfree
      exact hfree.2
  exact countP_merged_children i2 np _ hm hclean1 hk2

/-- C6, witness: merging twice with the January and June dates over an
initially empty container leaves exactly one entry for key
`main/app`. -/
theorem c6_idempotent_witness :
    (write_element_with_interpreter
      (RubyMineInterpreter.mk "/usr/bin/ruby" "/opt/rubies/3.2.0/bin/ruby" "3.2.0"
        "Ruby 3.2.0 (main/app) + shadowenv 2024-01-01" "/trees/main/app"
        "/opt/homebrew/bin/shadowenv" false)
      (XNode.element "component" [("name", "ProjectJdkTable")] []) =
      [XNode.element "component" [("name", "ProjectJdkTable")]
        (writeChildrenWI
          (RubyMineInterpreter.mk "/usr/bin/ruby" "/opt/rubies/3.2.0/bin/ruby" "3.2.0"
            "Ruby 3.2.0 (main/app) + shadowenv 2024-01-01" "/trees/main/app"
            "/opt/homebrew/bin/shadowenv" false) true [] ++
          [write_shadowenv_interpreter
            (RubyMineInterpreter.mk "/usr/bin/ruby" "/opt/rubies/3.2.0/bin/ruby" "3.2.0"
              "Ruby 3.2.0 (main/app) + shadowenv 2024-01-01" "/trees/main/app"
              "/opt/homebrew/bin/shadowenv" false)])]) ∧
    (write_element_with_interpreter
      (RubyMineInterpreter.mk "/usr/bin/ruby" "/opt/rubies/3.2.0/bin/ruby" "3.2.0"
        "Ruby 3.2.0 (main/app) + shadowenv 2024-06-01" "/trees/main/app"
        "/opt/homebrew/bin/shadowenv" false)
      (XNode.element "component" [("name", "ProjectJdkTable")]
        (writeChildrenWI
          (RubyMineInterpreter.mk "/usr/bin/ruby" "/opt/rubies/3.2.0/bin/ruby" "3.2.0"
            "Ruby 3.2.0 (main/app) + shadowenv 2024-01-01" "/trees/main/app"
            "/opt/homebrew/bin/shadowenv" false) true [] ++
          [write_shadowenv_interpreter
            (RubyMineInterpreter.mk "/usr/bin/ruby" "/opt/rubies/3.2.0/bin/ruby" "3.2.0"
              "Ruby 3.2.0 (main/app) + shadowenv 2024-01-01" "/trees/main/app"
              "/opt/homebrew/bin/shadowenv" false)])) =
      [XNode.element "component" [("name", "ProjectJdkTable")]
        (writeChildrenWI
            (RubyMineInterpreter.mk "/usr/bin/ruby" "/opt/rubies/3.2.0/bin/ruby" "3.2.0"
              "Ruby 3.2.0 (main/app) + shadowenv 2024-06-01" "/trees/main/app"
              "/opt/homebrew/bin/shadowenv" false) true
            (writeChildrenWI
              (RubyMineInterpreter.mk "/usr/bin/ruby" "/opt/rubies/3.2.0/bin/ruby" "3.2.0"
                "Ruby 3.2.0 (main/app) + shadowenv 2024-01-01" "/trees/main/app"
                "/opt/homebrew/bin/shadowenv" false) true [] ++
              [write_shadowenv_interpreter
                (RubyMineInterpreter.mk "/usr/bin/ruby" "/opt/rubies/3.2.0/bin/ruby" "3.2.0"
                  "Ruby 3.2.0 (main/app) + shadowenv 2024-01-01" "/trees/main/app"
                  "/opt/homebrew/bin/shadowenv" false)]) ++
          [write_shadowenv_interpreter
            (RubyMineInterpreter.mk "/usr/bin/ruby" "/opt/rubies/3.2.0/bin/ruby" "3.2.0"
              "Ruby 3.2.0 (main/app) + shadowenv 2024-06-01" "/trees/main/app"
              "/opt/homebrew/bin/shadowenv" false)])]) ∧
    List.countP
      (fun c => isJdkElem c && decide (entryKey c = some "main/app".data))
      (writeChildrenWI
          (RubyMineInterpreter.mk "/usr/bin/ruby" "/opt/rubies/3.2.0/bin/ruby" "3.2.0"
            "Ruby 3.2.0 (main/app) + shadowenv 2024-06-01" "/trees/main/app"
            "/opt/homebrew/bin/shadowenv" false) true
          (writeChildrenWI
            (RubyMineInterpreter.mk "/usr/bin/ruby" "/opt/rubies/3.2.0/bin/ruby" "3.2.0"
              "Ruby 3.2.0 (main/app) + shadowenv 2024-01-01" "/trees/main/app"
              "/opt/homebrew/bin/shadowenv" false) true [] ++
            [write_shadowenv_interpreter
              (RubyMineInterpreter.mk "/usr/bin/ruby" "/opt/rubies/3.2.0/bin/ruby" "3.2.0"
                "Ruby 3.2.0 (main/app) + shadowenv 2024-01-01" "/trees/main/app"
                "/opt/homebrew/bin/shadowenv" false)]) ++
        [write_shadowenv_interpreter
          (RubyMineInterpreter.mk "/usr/bin/ruby" "/opt/rubies/3.2.0/bin/ruby" "3.2.0"
            "Ruby 3.2.0 (main/app) + shadowenv 2024-06-01" "/trees/main/app"
            "/opt/homebrew/bin/shadowenv" false)]) = 1 :=
  c6_idempotent
    (RubyMineInterpreter.mk "/usr/bin/ruby" "/opt/rubies/3.2.0/bin/ruby" "3.2.0"
      "Ruby 3.2.0 (main/app) + shadowenv 2024-01-01" "/trees/main/app"
      "/opt/homebrew/bin/shadowenv" false)
    (RubyMineInterpreter.mk "/usr/bin/ruby" "/opt/rubies/3.2.0/bin/ruby" "3.2.0"
      "Ruby 3.2.0 (main/app) + shadowenv 2024-06-01" "/trees/main/app"
      "/opt/homebrew/bin/shadowenv" false)
    [("name", "ProjectJdkTable")] [] "2024-01-01" "2024-06-01" "main/app".data
    (by rfl) (by rfl) (by rfl) (by rfl) (by decide) (by rfl) (by decide) (by rfl)
    (by intro t a2 k hmem ht; exact absurd hmem (List.not_mem_nil _))

/-- C7: if parsing the existing configuration text fails, the invocation
returns that error and produces no content and no filesystem action (no
backup, no write): the backup/write step only exists on the success
branch of the returned value. -/
theorem c7_parse_error_no_write (i : RubyMineInterpreter) (e : String) :
    create_interpreter i true (Except.error e) = Except.error e := rfl

/-- C8: for the data-source shape, the first `data-source` element in
document order carrying a `uuid` attribute supplies the reused uuid; a
fresh uuid is used only when there is no prior document or no
uuid-bearing data-source element; and both generated documents carry
that same single uuid value on their `data-source` element. -/
theorem c8_uuid_stability :
    (∀ (doc : XNode) (u fresh : String), findDataSourceUuid doc = some u →
      get_or_generate_datasource_uuid (some doc) fresh = u) ∧
    (∀ (doc : XNode) (fresh : String), findDataSourceUuid doc = none →
      get_or_generate_datasource_uuid (some doc) fresh = fresh) ∧
    (∀ fresh : String, get_or_generate_datasource_uuid none fresh = fresh) ∧
    (∀ (c : MySqlConfig) (u : String),
      findDataSourceUuid (create_datasources_xml c u) = some u ∧
      findDataSourceUuid (create_datasources_local_xml c u) = some u) := by
  refine ⟨?_, ?_, ?_, ?_⟩
  · intro doc u fresh h
    simp [get_or_generate_datasource_uuid, h]
  · intro doc fresh h
    simp [get_or_generate_datasource_uuid, h]
  · intro fresh
    rfl
  · intro c u
    exact ⟨rfl, rfl⟩

/-- C8, witness: a prior document carrying a uuid-bearing data-source
element has its uuid reused verbatim instead of the fresh one. -/
theorem c8_uuid_stability_witness :
    get_or_generate_datasource_uuid
      (some (XNode.element "project" []
        [XNode.element "component" []
          [XNode.element "data-source" [("uuid", "11111111-2222-3333")] []]]))
      "fresh-uuid" = "11111111-2222-3333" :=
  c8_uuid_stability.1
    (XNode.element "project" []
      [XNode.element "component" []
        [XNode.element "data-source" [("uuid", "11111111-2222-3333")] []]])
    "11111111-2222-3333" "fresh-uuid" (by rfl)

/-- C9: with no prior file the generated content is exactly the
two-level skeleton — an `application` root whose single child is the
`ProjectJdkTable` component whose single child is the freshly built
`jdk` entry — containing exactly one container element and exactly one
entry element. -/
theorem c9_creation_skeleton (i : RubyMineInterpreter) :
    create_new_config_content i =
      XNode.element "application" []
        [XNode.element "component" [("name", "ProjectJdkTable")]
          [write_shadowenv_interpreter i]] ∧
    countTag "component" [create_new_config_content i] = 1 ∧
    countTag "jdk" [create_new_config_content i] = 1 ∧
    isJdkElem (write_shadowenv_interpreter i) = true ∧
    isPJTNode (XNode.element "component" [("name", "ProjectJdkTable")]
      [write_shadowenv_interpreter i]) = true :=
  ⟨rfl, rfl, rfl, rfl, rfl⟩

/-- C10: on a `RTEST_RUN_CONFIG_SETTINGS_ID` element carrying a
`NAME="RUBY_ARGS"` attribute, the rewriter closes the element right
after emitting the rewritten attributes and returns, so whatever
children the element had are all dropped from the output. -/
theorem c10_children_dropped (ra : String) (pre post : List (String × String))
    (kids : List XNode)
    (hpre : ∀ p ∈ pre, ¬(p.1 = "NAME" ∧ p.2 = "RUBY_ARGS")) :
    ∃ as2,
      write_workspace_element ra
        (XNode.element "RTEST_RUN_CONFIG_SETTINGS_ID"
          (pre ++ ("NAME", "RUBY_ARGS") :: post) kids) =
        ([XNode.element "RTEST_RUN_CONFIG_SETTINGS_ID" as2 []], true) :=
  ⟨_, ww_trigger_elem ra pre post kids hpre⟩

/-- C10, witness: an element with two children is emitted with none. -/
theorem c10_children_dropped_witness :
    ∃ as2,
      write_workspace_element "-Inew"
        (XNode.element "RTEST_RUN_CONFIG_SETTINGS_ID"
          ([] ++ ("NAME", "RUBY_ARGS") :: [("VALUE", "old")])
          [XNode.element "a" [] [], XNode.text "hello"]) =
        ([XNode.element "RTEST_RUN_CONFIG_SETTINGS_ID" as2 []], true) :=
  c10_children_dropped "-Inew" [] [("VALUE", "old")]
    [XNode.element "a" [] [], XNode.text "hello"] (by decide)
